import Mathlib

/-!
Verification of the quota/scheduling bookkeeping, webhook dispatch and
orchestrator selection logic of the ai-email-workflow repository.

The program state kept in the backing row store is embedded shallowly:
each table is a list of rows, each row a structure mirroring the columns
the code reads and writes.  External collaborators (content generation,
delivery, the row store's failure modes) are modelled by explicit
parameters and fault oracles; every store write the code issues is a pure
update on the embedded state.
-/

namespace AIEmailWorkflow

/-!
### Schedule / quota tracker

Translated from the email schedule module (`getEmailSchedule`,
`createOrUpdateEmailSchedule`, `incrementEmailsSent`,
`generateEmailSchedules`, `getRemainingEmailQuota`).

Dates are modelled as natural numbers, one per calendar day.  The store is
the list of rows of the `email_schedule` table; its `scheduled_date` column
is declared UNIQUE in the schema, so a row is addressed by its date (the
row `id` the source passes to `.eq("id", ...)` is in one-to-one
correspondence with the date).  Counters are naturals: the code only ever
writes 0 or an increment of a stored value, and limits come from parsed
non-negative configuration.
-/

structure ScheduleRow where
  scheduled_date : Nat
  emails_limit : Nat
  emails_sent : Nat
  is_completed : Bool
  deriving Repr, DecidableEq

/-- Failure modes of the schedule tracker: the source throws
`No email schedule found for date ...` and `Email limit reached for date ...`
(the spec's QuotaExceeded). -/
inductive SchedErr where
  | noScheduleFound
  | quotaExceeded
  deriving Repr, DecidableEq

/-- `getEmailSchedule`: select the single row keyed by the date
(`.eq("scheduled_date", d).single()`), absent rows giving no data. -/
def getEmailSchedule (store : List ScheduleRow) (d : Nat) : Option ScheduleRow :=
  store.find? (fun r => r.scheduled_date == d)

/-- `createOrUpdateEmailSchedule`: if a row for the date exists, update its
`emails_limit` only; otherwise insert a fresh row with `emails_sent = 0`
and `is_completed = false`.  Returns the written row with the new store. -/
def createOrUpdateEmailSchedule (store : List ScheduleRow) (d : Nat) (limit : Nat) :
    ScheduleRow × List ScheduleRow :=
  match getEmailSchedule store d with
  | some s =>
      let s' := { s with emails_limit := limit }
      (s', store.map (fun r => if r.scheduled_date == d then s' else r))
  | none =>
      let row : ScheduleRow := ⟨d, limit, 0, false⟩
      (row, store ++ [row])

/-- `incrementEmailsSent`: read the row for the date; throw if absent; throw
if `emails_sent >= emails_limit`; otherwise write back `emails_sent + 1`
and the recomputed `is_completed`.  On a throw the store is returned
unchanged: the failing paths issue no write. -/
def incrementEmailsSent (store : List ScheduleRow) (d : Nat) :
    List ScheduleRow × Except SchedErr ScheduleRow :=
  match getEmailSchedule store d with
  | none => (store, .error .noScheduleFound)
  | some s =>
      if s.emails_sent ≥ s.emails_limit then (store, .error .quotaExceeded)
      else
        let s' := { s with
          emails_sent := s.emails_sent + 1,
          is_completed := decide (s.emails_sent + 1 ≥ s.emails_limit) }
        (store.map (fun r => if r.scheduled_date == d then s' else r), .ok s')

/-- The `order("scheduled_date", descending).limit(1)` query: the row with
the greatest date (dates are unique, so ties cannot arise). -/
def latestSchedule : List ScheduleRow → Option ScheduleRow
  | [] => none
  | r :: rs =>
      match latestSchedule rs with
      | none => some r
      | some m => if r.scheduled_date ≥ m.scheduled_date then some r else some m

/-- The generation loop of `generateEmailSchedules`: for day offsets
`i, i+1, ...` write the current limit via `createOrUpdateEmailSchedule`,
increasing it by the warm-up rate after each day. -/
def genLoop (rate : Nat) (today : Nat) :
    Nat → Nat → Nat → List ScheduleRow → List ScheduleRow × List ScheduleRow
  | 0, _, _, st => ([], st)
  | n + 1, i, cur, st =>
      let step := createOrUpdateEmailSchedule st (today + i) cur
      let out := genLoop rate today n (i + 1) (cur + rate) step.2
      (step.1 :: out.1, out.2)

/-- `generateEmailSchedules`: start from the most recent schedule's limit
plus the warm-up rate (or the configured daily default when no schedule
exists) and seed the next `days` calendar days starting today.
`dailyLimit` and `rate` are the DAILY_EMAIL_LIMIT and
EMAIL_WARMUP_INCREASE_RATE configuration values. -/
def generateEmailSchedules (dailyLimit rate : Nat) (days : Nat) (today : Nat)
    (store : List ScheduleRow) : List ScheduleRow × List ScheduleRow :=
  let base :=
    match latestSchedule store with
    | none => dailyLimit
    | some l => l.emails_limit + rate
  genLoop rate today days 0 base store

/-- `getRemainingEmailQuota`: lazily create today's schedule with the
configured default limit when absent (returning that limit), otherwise
return `max(0, limit - sent)` (truncated subtraction on naturals). -/
def getRemainingEmailQuota (dailyLimit : Nat) (today : Nat) (store : List ScheduleRow) :
    Nat × List ScheduleRow :=
  match getEmailSchedule store today with
  | none =>
      let created := createOrUpdateEmailSchedule store today dailyLimit
      (created.1.emails_limit, created.2)
  | some s => (s.emails_limit - s.emails_sent, store)

/-- A sequence of `n` calls to `incrementEmailsSent`, all of which succeed
(`none` when any call in the sequence fails). -/
def incrementSeq (d : Nat) : Nat → List ScheduleRow → Option (List ScheduleRow)
  | 0, store => some store
  | n + 1, store =>
      match incrementSeq d n store with
      | none => none
      | some st =>
          match incrementEmailsSent st d with
          | (st', .ok _) => some st'
          | (_, .error _) => none

/-!
### Lemmas about the schedule store
-/

theorem getEmailSchedule_map_set (store : List ScheduleRow) (d : Nat) (s' : ScheduleRow)
    (hd : s'.scheduled_date = d)
    (h : (getEmailSchedule store d).isSome) :
    getEmailSchedule (store.map (fun r => if r.scheduled_date == d then s' else r)) d
      = some s' := by
  induction store with
  | nil => simp [getEmailSchedule] at h
  | cons r rs ih =>
      by_cases hr : (r.scheduled_date == d) = true
      · simp only [getEmailSchedule, List.map_cons, if_pos hr]
        exact List.find?_cons_of_pos _ (by simpa using hd)
      · have hr' : (r.scheduled_date == d) = false := by
          simpa using hr
        simp only [getEmailSchedule, List.map_cons, hr', Bool.false_eq_true, if_false]
        rw [@List.find?_cons_of_neg _ (fun x => x.scheduled_date == d) r _ hr]
        have h' : (getEmailSchedule rs d).isSome := by
          have heq : getEmailSchedule (r :: rs) d = getEmailSchedule rs d := by
            simp only [getEmailSchedule]
            exact @List.find?_cons_of_neg _ (fun x => x.scheduled_date == d) r rs hr
          rwa [heq] at h
        exact ih h'

theorem getEmailSchedule_append_of_none (store : List ScheduleRow) (d : Nat)
    (row : ScheduleRow) (h : getEmailSchedule store d = none) :
    getEmailSchedule (store ++ [row]) d = getEmailSchedule [row] d := by
  simp only [getEmailSchedule] at h ⊢
  rw [List.find?_append, h, Option.none_or]

theorem createOrUpdateEmailSchedule_row (store : List ScheduleRow) (d limit : Nat) :
    (createOrUpdateEmailSchedule store d limit).1.scheduled_date = d ∧
      (createOrUpdateEmailSchedule store d limit).1.emails_limit = limit := by
  unfold createOrUpdateEmailSchedule
  cases h : getEmailSchedule store d with
  | none => exact ⟨rfl, rfl⟩
  | some s =>
      refine ⟨?_, rfl⟩
      have := List.find?_some h
      simpa using this

theorem incrementEmailsSent_ok (store : List ScheduleRow) (d : Nat) (st' : List ScheduleRow)
    (s' : ScheduleRow) (h : incrementEmailsSent store d = (st', Except.ok s')) :
    getEmailSchedule st' d = some s' ∧ s'.emails_sent ≤ s'.emails_limit := by
  unfold incrementEmailsSent at h
  cases hf : getEmailSchedule store d with
  | none => rw [hf] at h; dsimp only at h; exact absurd (congrArg Prod.snd h) (by simp)
  | some s =>
      rw [hf] at h
      dsimp only at h
      by_cases hlim : s.emails_sent ≥ s.emails_limit
      · rw [if_pos hlim] at h
        exact absurd (congrArg Prod.snd h) (by simp)
      · rw [if_neg hlim] at h
        rw [Prod.mk.injEq] at h
        obtain ⟨h1, h2⟩ := h
        injection h2 with h2'
        subst h2'
        subst h1
        have hd : ({ s with
            emails_sent := s.emails_sent + 1,
            is_completed := decide (s.emails_sent + 1 ≥ s.emails_limit) }
              : ScheduleRow).scheduled_date = d := by
          have := List.find?_some hf
          simpa using this
        refine ⟨getEmailSchedule_map_set store d _ hd (by rw [hf]; rfl), ?_⟩
        simpa using Nat.lt_of_not_le hlim

/-- C1. For every date, a schedule row that starts with `emails_sent = 0`
keeps `emails_sent ≤ emails_limit` after any sequence of successful
`incrementEmailsSent` calls, and as soon as `emails_sent` equals
`emails_limit`, the next call fails with QuotaExceeded and returns the
store unchanged. -/
theorem incrementEmailsSent_quota_invariant (store : List ScheduleRow) (d : Nat)
    (s0 : ScheduleRow) (n : Nat) (st' : List ScheduleRow)
    (h0 : getEmailSchedule store d = some s0)
    (hz : s0.emails_sent = 0)
    (hseq : incrementSeq d n store = some st') :
    (∀ s, getEmailSchedule st' d = some s → s.emails_sent ≤ s.emails_limit) ∧
    (∀ s, getEmailSchedule st' d = some s → s.emails_sent = s.emails_limit →
      incrementEmailsSent st' d = (st', Except.error SchedErr.quotaExceeded)) := by
  constructor
  · intro s hs
    induction n generalizing st' with
    | zero =>
        simp only [incrementSeq, Option.some.injEq] at hseq
        subst hseq
        rw [h0] at hs
        cases hs
        simp [hz]
    | succ m ih =>
        simp only [incrementSeq] at hseq
        cases hmid : incrementSeq d m store with
        | none => rw [hmid] at hseq; cases hseq
        | some st₁ =>
            rw [hmid] at hseq
            dsimp only at hseq
            cases hinc : incrementEmailsSent st₁ d with
            | mk st₂ res =>
                rw [hinc] at hseq
                cases res with
                | error e => cases hseq
                | ok s₂ =>
                    cases hseq
                    have := incrementEmailsSent_ok st₁ d st' s₂ hinc
                    rw [this.1] at hs
                    cases hs
                    exact this.2
  · intro s hs heq
    unfold incrementEmailsSent
    rw [hs]
    dsimp only
    rw [if_pos (le_of_eq heq.symm)]

/-- Witness for C1: a two-increment run on a limit-2 schedule reaches the
limit, stays within it, and the next call fails without a write. -/
theorem incrementEmailsSent_quota_invariant_witness :
    (∀ s, getEmailSchedule [⟨0, 2, 2, true⟩] 0 = some s →
      s.emails_sent ≤ s.emails_limit) ∧
    (∀ s, getEmailSchedule [⟨0, 2, 2, true⟩] 0 = some s →
      s.emails_sent = s.emails_limit →
      incrementEmailsSent [⟨0, 2, 2, true⟩] 0
        = ([⟨0, 2, 2, true⟩], Except.error SchedErr.quotaExceeded)) :=
  incrementEmailsSent_quota_invariant [⟨0, 2, 0, false⟩] 0 ⟨0, 2, 0, false⟩ 2
    [⟨0, 2, 2, true⟩] rfl rfl rfl

theorem createOrUpdateEmailSchedule_absent (store : List ScheduleRow) (d limit : Nat)
    (habs : getEmailSchedule store d = none) :
    (createOrUpdateEmailSchedule store d limit).1 = ⟨d, limit, 0, false⟩ ∧
      getEmailSchedule (createOrUpdateEmailSchedule store d limit).2 d
        = some ⟨d, limit, 0, false⟩ := by
  unfold createOrUpdateEmailSchedule
  rw [habs]
  refine ⟨rfl, ?_⟩
  dsimp only
  rw [getEmailSchedule_append_of_none store d _ habs]
  simp [getEmailSchedule]

/-- C7. `createOrUpdateEmailSchedule` inserts a fresh row with
`emails_sent = 0` when no row exists for the date, and when one exists it
overwrites `emails_limit` only, leaving `emails_sent` and `is_completed`
untouched. -/
theorem createOrUpdateEmailSchedule_spec (store : List ScheduleRow) (d limit : Nat) :
    (getEmailSchedule store d = none →
      (createOrUpdateEmailSchedule store d limit).1 = ⟨d, limit, 0, false⟩ ∧
      getEmailSchedule (createOrUpdateEmailSchedule store d limit).2 d
        = some ⟨d, limit, 0, false⟩) ∧
    (∀ s, getEmailSchedule store d = some s →
      (createOrUpdateEmailSchedule store d limit).1 = { s with emails_limit := limit } ∧
      getEmailSchedule (createOrUpdateEmailSchedule store d limit).2 d
        = some { s with emails_limit := limit } ∧
      (createOrUpdateEmailSchedule store d limit).1.emails_sent = s.emails_sent ∧
      (createOrUpdateEmailSchedule store d limit).1.is_completed = s.is_completed) := by
  constructor
  · exact createOrUpdateEmailSchedule_absent store d limit
  · intro s hpres
    unfold createOrUpdateEmailSchedule
    rw [hpres]
    have hd : ({ s with emails_limit := limit } : ScheduleRow).scheduled_date = d := by
      have := List.find?_some hpres
      simpa using this
    refine ⟨rfl, ?_, rfl, rfl⟩
    exact getEmailSchedule_map_set store d _ hd (by rw [hpres]; rfl)

/-- C9. Calling `incrementEmailsSent` for a date with no schedule row fails
with the no-schedule error and leaves the store untouched, while
`getRemainingEmailQuota` lazily creates today's schedule with the
configured default limit when it is absent. -/
theorem incrementEmailsSent_no_lazy_create (store : List ScheduleRow)
    (d dailyLimit today : Nat)
    (habs : getEmailSchedule store d = none)
    (htoday : getEmailSchedule store today = none) :
    incrementEmailsSent store d = (store, Except.error SchedErr.noScheduleFound) ∧
    (getRemainingEmailQuota dailyLimit today store).1 = dailyLimit ∧
    getEmailSchedule (getRemainingEmailQuota dailyLimit today store).2 today
      = some ⟨today, dailyLimit, 0, false⟩ := by
  refine ⟨?_, ?_, ?_⟩
  · unfold incrementEmailsSent
    rw [habs]
  · unfold getRemainingEmailQuota
    rw [htoday]
    dsimp only
    rw [(createOrUpdateEmailSchedule_absent store today dailyLimit htoday).1]
  · unfold getRemainingEmailQuota
    rw [htoday]
    dsimp only
    exact (createOrUpdateEmailSchedule_absent store today dailyLimit htoday).2

/-- Witness for C9: on an empty store the increment call fails without a
write and the quota read creates day 0's schedule with the default limit. -/
theorem incrementEmailsSent_no_lazy_create_witness :
    incrementEmailsSent [] 0 = ([], Except.error SchedErr.noScheduleFound) ∧
    (getRemainingEmailQuota 5 0 []).1 = 5 ∧
    getEmailSchedule (getRemainingEmailQuota 5 0 []).2 0 = some ⟨0, 5, 0, false⟩ :=
  incrementEmailsSent_no_lazy_create [] 0 5 0 rfl rfl

theorem genLoop_dates_limits (rate today : Nat) :
    ∀ (n i cur : Nat) (st : List ScheduleRow),
      (genLoop rate today n i cur st).1.map
          (fun r => (r.scheduled_date, r.emails_limit))
        = (List.range n).map (fun k => (today + (i + k), cur + k * rate)) := by
  intro n
  induction n with
  | zero => intro i cur st; simp [genLoop]
  | succ m ih =>
      intro i cur st
      simp only [genLoop, List.map_cons]
      rw [ih (i + 1) (cur + rate) (createOrUpdateEmailSchedule st (today + i) cur).2]
      rw [List.range_succ_eq_map, List.map_cons, List.map_map]
      have hrow := createOrUpdateEmailSchedule_row st (today + i) cur
      congr 1
      · rw [Prod.mk.injEq]
        exact ⟨by rw [hrow.1]; omega, by rw [hrow.2]; ring⟩
      · apply List.map_congr_left
        intro k _
        simp only [Function.comp_apply, Nat.succ_eq_add_one, Prod.mk.injEq]
        constructor
        · omega
        · ring

/-- C6. `generateEmailSchedules` started from an existing latest schedule of
limit L produces, for the k-th generated day (dated today + k, k = 0.., so
the k-th limit written is the (k+1)-st warm-up step), the limit
L + (k+1)·rate — i.e. the limits L + k·rate for k = 1..n; with no prior
schedule, day 0 gets the configured default limit and day k gets
default + k·rate. -/
theorem generateEmailSchedules_warmup (dailyLimit rate days today : Nat)
    (store : List ScheduleRow) :
    (∀ l, latestSchedule store = some l →
      (generateEmailSchedules dailyLimit rate days today store).1.map
          (fun r => (r.scheduled_date, r.emails_limit))
        = (List.range days).map
            (fun k => (today + k, l.emails_limit + (k + 1) * rate))) ∧
    (latestSchedule store = none →
      (generateEmailSchedules dailyLimit rate days today store).1.map
          (fun r => (r.scheduled_date, r.emails_limit))
        = (List.range days).map (fun k => (today + k, dailyLimit + k * rate))) := by
  constructor
  · intro l hl
    unfold generateEmailSchedules
    rw [hl]
    dsimp only
    rw [genLoop_dates_limits rate today days 0 (l.emails_limit + rate) store]
    apply List.map_congr_left
    intro k _
    rw [Prod.mk.injEq]
    exact ⟨by omega, by ring⟩
  · intro hl
    unfold generateEmailSchedules
    rw [hl]
    dsimp only
    rw [genLoop_dates_limits rate today days 0 dailyLimit store]
    apply List.map_congr_left
    intro k _
    rw [Prod.mk.injEq]
    exact ⟨by omega, rfl⟩

/-!
### Row-store state shared by the webhook dispatcher and the orchestrator

One row per record of the `companies` and `emails` tables, with the columns
the verified code reads or writes.  Row ids are opaque store-assigned
numbers.  Timestamps are naturals.
-/

structure CompanyRow where
  id : Nat
  name : String
  contact_email : String
  email_verified : Bool
  status : String
  priority : Nat
  created_at : Nat
  deriving Repr, DecidableEq

structure EmailRow where
  id : Nat
  company_id : Nat
  message_id : String
  subject : String
  body : String
  status : String
  opened_at : Option Nat
  clicked_at : Option Nat
  deriving Repr, DecidableEq

structure DB where
  companies : List CompanyRow
  emails : List EmailRow
  deriving Repr, DecidableEq

/-- The `.eq("message_id", m).limit(1)` lookup on the emails table. -/
def findEmailByMessageId (db : DB) (m : String) : Option EmailRow :=
  db.emails.find? (fun e => e.message_id == m)

/-- An `update(...).eq("id", eid)` write on the emails table. -/
def updateEmailRow (db : DB) (eid : Nat) (f : EmailRow → EmailRow) : DB :=
  { db with emails := db.emails.map (fun e => if e.id == eid then f e else e) }

/-- An `update(...).eq("id", cid)` write on the companies table. -/
def updateCompanyRow (db : DB) (cid : Nat) (f : CompanyRow → CompanyRow) : DB :=
  { db with companies := db.companies.map (fun c => if c.id == cid then f c else c) }

/-!
### Webhook dispatcher (batch mode, `processSendGridWebhook`)

Each inbound event carries the provider's event name, message id, timestamp
and the optional click url / bounce reason fields the code copies into its
results.  Store failures are modelled by a fault oracle: during event
number `i` the store operations are numbered 0 (the select), 1 (the first
update) and 2 (the second update, issued by the bounce case only), and
operation `k` throws iff the oracle answers true at `(i, k)`.  The thrown
message is abstracted by `storeFailureMessage`.
-/

structure SGEvent where
  event : String
  sg_message_id : String
  timestamp : Nat
  url : String
  reason : String
  deriving Repr, DecidableEq

structure SGResult where
  event : String
  messageId : String
  emailId : Option Nat
  status : String
  reason : Option String
  url : Option String
  errMsg : Option String
  deriving Repr, DecidableEq

def storeFailureMessage : String := "store write failed"

/-- The catch-branch result: `{event, messageId, status: "error", error}`. -/
def sgErrorResult (ev : SGEvent) : SGResult :=
  ⟨ev.event, ev.sg_message_id, none, "error", none, none, some storeFailureMessage⟩

/-- The unknown-message-id result: `{..., status: "skipped", reason: "Email not found"}`. -/
def sgNotFoundResult (ev : SGEvent) : SGResult :=
  ⟨ev.event, ev.sg_message_id, none, "skipped", some "Email not found", none, none⟩

def sgOpenResult (ev : SGEvent) (eid : Nat) : SGResult :=
  ⟨ev.event, ev.sg_message_id, some eid, "success", none, none, none⟩

def sgClickResult (ev : SGEvent) (eid : Nat) : SGResult :=
  ⟨ev.event, ev.sg_message_id, some eid, "success", none, some ev.url, none⟩

def sgBounceResult (ev : SGEvent) (eid : Nat) : SGResult :=
  ⟨ev.event, ev.sg_message_id, some eid, "success", some ev.reason, none, none⟩

def sgUnsupportedResult (ev : SGEvent) (eid : Nat) : SGResult :=
  ⟨ev.event, ev.sg_message_id, some eid, "skipped", some "Unsupported event type", none, none⟩

/-- The field updates the dispatcher writes to an email row per event type. -/
def openUpd (t : Nat) (e : EmailRow) : EmailRow :=
  { e with status := "opened", opened_at := some t }

def clickUpd (t : Nat) (e : EmailRow) : EmailRow :=
  { e with status := "clicked", clicked_at := some t }

def bounceUpd (e : EmailRow) : EmailRow :=
  { e with status := "bounced" }

/-- The bounce case's write to the owning company row. -/
def unverifyUpd (c : CompanyRow) : CompanyRow :=
  { c with email_verified := false }

/-- Processing of one SendGrid event (one iteration of the dispatcher's
`for` loop): look the email up by message id, then dispatch on the event
type; `open`/`click` update the email's status and timestamp, `bounce`
updates the email and then unsets the owning company's `email_verified`;
any other type mutates nothing.  A store throw is caught by the loop body
and becomes the error result, keeping whatever writes already happened. -/
def processSGEvent (db : DB) (f : Nat → Bool) (ev : SGEvent) : SGResult × DB :=
  if f 0 then (sgErrorResult ev, db)
  else
    match findEmailByMessageId db ev.sg_message_id with
    | none => (sgNotFoundResult ev, db)
    | some email =>
        if ev.event == "open" then
          if f 1 then (sgErrorResult ev, db)
          else (sgOpenResult ev email.id,
            updateEmailRow db email.id (openUpd ev.timestamp))
        else if ev.event == "click" then
          if f 1 then (sgErrorResult ev, db)
          else (sgClickResult ev email.id,
            updateEmailRow db email.id (clickUpd ev.timestamp))
        else if ev.event == "bounce" then
          if f 1 then (sgErrorResult ev, db)
          else
            let db1 := updateEmailRow db email.id bounceUpd
            if f 2 then (sgErrorResult ev, db1)
            else (sgBounceResult ev email.id,
              updateCompanyRow db1 email.company_id unverifyUpd)
        else (sgUnsupportedResult ev email.id, db)

/-- The dispatcher's loop over the batch, pushing one result per event. -/
def sgEventLoop (faults : Nat → Nat → Bool) :
    Nat → List SGEvent → DB → List SGResult × DB
  | _, [], db => ([], db)
  | i, ev :: evs, db =>
      let step := processSGEvent db (faults i) ev
      let out := sgEventLoop faults (i + 1) evs step.2
      (step.1 :: out.1, out.2)

/-- `processSendGridWebhook`: process the whole batch, returning the result
list (in event order) and the final store state. -/
def processSendGridWebhook (db : DB) (faults : Nat → Nat → Bool)
    (payload : List SGEvent) : List SGResult × DB :=
  sgEventLoop faults 0 payload db

/-!
### Lemmas about the webhook dispatcher
-/

/-- The result an event produces, expressed as a function of the event, the
event's fault column and the id (if any) under which its message id is
found.  `processSGEvent_result` proves the dispatcher computes exactly
this. -/
def sgResultOf (ev : SGEvent) (f : Nat → Bool) (found : Option Nat) : SGResult :=
  if f 0 then sgErrorResult ev
  else
    match found with
    | none => sgNotFoundResult ev
    | some eid =>
        if ev.event == "open" then
          (if f 1 then sgErrorResult ev else sgOpenResult ev eid)
        else if ev.event == "click" then
          (if f 1 then sgErrorResult ev else sgClickResult ev eid)
        else if ev.event == "bounce" then
          (if f 1 then sgErrorResult ev
           else if f 2 then sgErrorResult ev else sgBounceResult ev eid)
        else sgUnsupportedResult ev eid

theorem processSGEvent_result (db : DB) (f : Nat → Bool) (ev : SGEvent) :
    (processSGEvent db f ev).1
      = sgResultOf ev f
          ((findEmailByMessageId db ev.sg_message_id).map (fun e => e.id)) := by
  unfold processSGEvent sgResultOf
  by_cases h0 : f 0 = true
  · simp [h0]
  · rw [if_neg h0, if_neg h0]
    cases hfind : findEmailByMessageId db ev.sg_message_id with
    | none => rfl
    | some email =>
        by_cases h1 : (ev.event == "open") = true
        · by_cases hf1 : f 1 = true <;> simp [h1, hf1]
        · by_cases h2 : (ev.event == "click") = true
          · by_cases hf1 : f 1 = true <;> simp [h1, h2, hf1]
          · by_cases h3 : (ev.event == "bounce") = true
            · by_cases hf1 : f 1 = true
              · simp [h1, h2, h3, hf1]
              · by_cases hf2 : f 2 = true <;> simp [h1, h2, h3, hf1, hf2]
            · simp [h1, h2, h3]

theorem find?_id_map (l : List EmailRow) (g : EmailRow → EmailRow)
    (hid : ∀ e, (g e).id = e.id) (hmid : ∀ e, (g e).message_id = e.message_id)
    (m : String) :
    ((l.map g).find? (fun e => e.message_id == m)).map (fun e => e.id)
      = (l.find? (fun e => e.message_id == m)).map (fun e => e.id) := by
  induction l with
  | nil => rfl
  | cons e es ih =>
      by_cases hm : (e.message_id == m) = true
      · rw [List.map_cons,
          @List.find?_cons_of_pos _ (fun e => e.message_id == m) (g e) _ (by
            simp only [hmid]; exact hm),
          @List.find?_cons_of_pos _ (fun e => e.message_id == m) e _ hm]
        simp [hid]
      · rw [List.map_cons,
          @List.find?_cons_of_neg _ (fun e => e.message_id == m) (g e) _ (by
            simp only [hmid]; exact hm),
          @List.find?_cons_of_neg _ (fun e => e.message_id == m) e _ hm]
        exact ih

theorem findId_updateEmailRow (db : DB) (eid : Nat) (upd : EmailRow → EmailRow)
    (hid : ∀ e, (upd e).id = e.id) (hmid : ∀ e, (upd e).message_id = e.message_id)
    (m : String) :
    (findEmailByMessageId (updateEmailRow db eid upd) m).map (fun e => e.id)
      = (findEmailByMessageId db m).map (fun e => e.id) := by
  unfold findEmailByMessageId updateEmailRow
  exact find?_id_map db.emails _
    (fun e => by by_cases h : (e.id == eid) = true <;> simp [h, hid])
    (fun e => by by_cases h : (e.id == eid) = true <;> simp [h, hmid]) m

theorem processSGEvent_findId (db : DB) (f : Nat → Bool) (ev : SGEvent) (m : String) :
    (findEmailByMessageId (processSGEvent db f ev).2 m).map (fun e => e.id)
      = (findEmailByMessageId db m).map (fun e => e.id) := by
  unfold processSGEvent
  by_cases h0 : f 0 = true
  · simp [h0]
  · rw [if_neg h0]
    cases hfind : findEmailByMessageId db ev.sg_message_id with
    | none => rfl
    | some email =>
        by_cases h1 : (ev.event == "open") = true
        · by_cases hf1 : f 1 = true
          · simp [h1, hf1]
          · simp only [h1, hf1, Bool.false_eq_true, if_true, if_false]
            exact findId_updateEmailRow db email.id (openUpd ev.timestamp)
              (fun e => rfl) (fun e => rfl) m
        · by_cases h2 : (ev.event == "click") = true
          · by_cases hf1 : f 1 = true
            · simp [h1, h2, hf1]
            · simp only [h1, h2, hf1, Bool.false_eq_true, if_true, if_false]
              exact findId_updateEmailRow db email.id (clickUpd ev.timestamp)
                (fun e => rfl) (fun e => rfl) m
          · by_cases h3 : (ev.event == "bounce") = true
            · by_cases hf1 : f 1 = true
              · simp [h1, h2, h3, hf1]
              · by_cases hf2 : f 2 = true
                · simp only [h1, h2, h3, hf1, hf2, Bool.false_eq_true, if_true, if_false]
                  exact findId_updateEmailRow db email.id bounceUpd
                    (fun e => rfl) (fun e => rfl) m
                · simp only [h1, h2, h3, hf1, hf2, Bool.false_eq_true, if_true, if_false]
                  exact findId_updateEmailRow db email.id bounceUpd
                    (fun e => rfl) (fun e => rfl) m
            · simp [h1, h2, h3]

theorem sgEventLoop_length (faults : Nat → Nat → Bool) :
    ∀ (evs : List SGEvent) (i : Nat) (db : DB),
      (sgEventLoop faults i evs db).1.length = evs.length := by
  intro evs
  induction evs with
  | nil => intro i db; rfl
  | cons ev evs ih =>
      intro i db
      simp only [sgEventLoop, List.length_cons]
      rw [ih]

theorem sgEventLoop_result (faults : Nat → Nat → Bool) :
    ∀ (evs : List SGEvent) (i : Nat) (db : DB) (j : Nat) (ev : SGEvent),
      evs[j]? = some ev →
      (sgEventLoop faults i evs db).1[j]?
        = some (sgResultOf ev (faults (i + j))
            ((findEmailByMessageId db ev.sg_message_id).map (fun e => e.id))) := by
  intro evs
  induction evs with
  | nil => intro i db j ev h; simp at h
  | cons e es ih =>
      intro i db j ev h
      cases j with
      | zero =>
          rw [List.getElem?_cons_zero, Option.some.injEq] at h
          subst h
          simp only [sgEventLoop, List.getElem?_cons_zero, Nat.add_zero]
          rw [processSGEvent_result]
      | succ k =>
          rw [List.getElem?_cons_succ] at h
          simp only [sgEventLoop, List.getElem?_cons_succ]
          rw [ih (i + 1) _ k ev h, processSGEvent_findId]
          have : i + 1 + k = i + (k + 1) := by omega
          rw [this]

theorem sgResultOf_header (ev : SGEvent) (f : Nat → Bool) (o : Option Nat) :
    (sgResultOf ev f o).event = ev.event ∧
      (sgResultOf ev f o).messageId = ev.sg_message_id := by
  unfold sgResultOf
  by_cases h0 : f 0 = true
  · simp [h0, sgErrorResult]
  · rw [if_neg h0]
    cases o with
    | none => exact ⟨rfl, rfl⟩
    | some eid =>
        by_cases h1 : (ev.event == "open") = true
        · by_cases hf1 : f 1 = true <;>
            simp [h1, hf1, sgErrorResult, sgOpenResult]
        · by_cases h2 : (ev.event == "click") = true
          · by_cases hf1 : f 1 = true <;>
              simp [h1, h2, hf1, sgErrorResult, sgClickResult]
          · by_cases h3 : (ev.event == "bounce") = true
            · by_cases hf1 : f 1 = true
              · simp [h1, h2, h3, hf1, sgErrorResult]
              · by_cases hf2 : f 2 = true <;>
                  simp [h1, h2, h3, hf1, hf2, sgErrorResult, sgBounceResult]
            · simp [h1, h2, h3, sgUnsupportedResult]

/-- C3. The batch dispatcher returns exactly one result per event, in event
order; an event whose message id matches no email record yields the
skipped/"Email not found" result and mutates no state; a faulted select
yields the error result for that event; and changing the faults of one
event (its store writes included) leaves every other event's result
unchanged. -/
theorem processSendGridWebhook_batch_spec (db : DB) (faults faults' : Nat → Nat → Bool)
    (payload : List SGEvent) (i₀ : Nat)
    (hagree : ∀ j, j ≠ i₀ → faults j = faults' j) :
    ((processSendGridWebhook db faults payload).1.length = payload.length) ∧
    (∀ (j : Nat) (ev : SGEvent), payload[j]? = some ev →
      ∃ r : SGResult, (processSendGridWebhook db faults payload).1[j]? = some r ∧
        r.event = ev.event ∧ r.messageId = ev.sg_message_id) ∧
    (∀ (j : Nat) (ev : SGEvent), payload[j]? = some ev → faults j 0 = false →
      findEmailByMessageId db ev.sg_message_id = none →
      (processSendGridWebhook db faults payload).1[j]? = some (sgNotFoundResult ev)) ∧
    (∀ (g : Nat → Bool) (ev : SGEvent), g 0 = false →
      findEmailByMessageId db ev.sg_message_id = none →
      (processSGEvent db g ev).2 = db) ∧
    (∀ (j : Nat) (ev : SGEvent), payload[j]? = some ev → faults j 0 = true →
      (processSendGridWebhook db faults payload).1[j]? = some (sgErrorResult ev)) ∧
    (∀ j : Nat, j ≠ i₀ →
      (processSendGridWebhook db faults payload).1[j]?
        = (processSendGridWebhook db faults' payload).1[j]?) := by
  refine ⟨sgEventLoop_length faults payload 0 db, ?_, ?_, ?_, ?_, ?_⟩
  · intro j ev h
    refine ⟨sgResultOf ev (faults j)
      ((findEmailByMessageId db ev.sg_message_id).map (fun e => e.id)), ?_, ?_, ?_⟩
    · unfold processSendGridWebhook
      have := sgEventLoop_result faults payload 0 db j ev h
      rwa [Nat.zero_add] at this
    · exact (sgResultOf_header ev (faults j) _).1
    · exact (sgResultOf_header ev (faults j) _).2
  · intro j ev h hf0 hnone
    unfold processSendGridWebhook
    have := sgEventLoop_result faults payload 0 db j ev h
    rw [Nat.zero_add] at this
    rw [this, hnone]
    unfold sgResultOf
    rw [hf0]
    rfl
  · intro g ev hg0 hnone
    unfold processSGEvent
    rw [hg0, hnone]
    rfl
  · intro j ev h hf0
    unfold processSendGridWebhook
    have := sgEventLoop_result faults payload 0 db j ev h
    rw [Nat.zero_add] at this
    rw [this]
    unfold sgResultOf
    rw [hf0]
    rfl
  · intro j hj
    by_cases hjl : j < payload.length
    · obtain ⟨ev, hev⟩ : ∃ ev : SGEvent, payload[j]? = some ev :=
        ⟨payload.get ⟨j, hjl⟩, by
          rw [List.getElem?_eq_some_iff]
          exact ⟨hjl, rfl⟩⟩
      have h1 := sgEventLoop_result faults payload 0 db j ev hev
      have h2 := sgEventLoop_result faults' payload 0 db j ev hev
      rw [Nat.zero_add] at h1 h2
      unfold processSendGridWebhook
      rw [h1, h2, hagree j hj]
    · have hlen : payload.length ≤ j := Nat.le_of_not_lt hjl
      unfold processSendGridWebhook
      rw [List.getElem?_eq_none (by rw [sgEventLoop_length]; exact hlen),
        List.getElem?_eq_none (by rw [sgEventLoop_length]; exact hlen)]

/-- Concrete data for the batch-dispatch witness: one stored email with
message id "msgA"; a two-event batch whose second event is faulted in the
primed fault oracle. -/
def wDB : DB :=
  ⟨[⟨7, "Acme", "hr@acme.example", true, "contacted", 3, 0⟩],
   [⟨21, 7, "msgA", "hello", "body", "sent", none, none⟩]⟩

def wPayload : List SGEvent :=
  [⟨"open", "msgA", 100, "", ""⟩, ⟨"click", "msgB", 101, "url", ""⟩]

def wFaults : Nat → Nat → Bool := fun _ _ => false

def wFaults' : Nat → Nat → Bool := fun j k => j == 1 && k == 1

/-- Witness for C3 at the concrete batch above, with the fault oracles
differing only at event 1. -/
theorem processSendGridWebhook_batch_spec_witness :
    ((processSendGridWebhook wDB wFaults wPayload).1.length = wPayload.length) ∧
    (∀ (j : Nat) (ev : SGEvent), wPayload[j]? = some ev →
      ∃ r : SGResult, (processSendGridWebhook wDB wFaults wPayload).1[j]? = some r ∧
        r.event = ev.event ∧ r.messageId = ev.sg_message_id) ∧
    (∀ (j : Nat) (ev : SGEvent), wPayload[j]? = some ev → wFaults j 0 = false →
      findEmailByMessageId wDB ev.sg_message_id = none →
      (processSendGridWebhook wDB wFaults wPayload).1[j]? = some (sgNotFoundResult ev)) ∧
    (∀ (g : Nat → Bool) (ev : SGEvent), g 0 = false →
      findEmailByMessageId wDB ev.sg_message_id = none →
      (processSGEvent wDB g ev).2 = wDB) ∧
    (∀ (j : Nat) (ev : SGEvent), wPayload[j]? = some ev → wFaults j 0 = true →
      (processSendGridWebhook wDB wFaults wPayload).1[j]? = some (sgErrorResult ev)) ∧
    (∀ j : Nat, j ≠ 1 →
      (processSendGridWebhook wDB wFaults wPayload).1[j]?
        = (processSendGridWebhook wDB wFaults' wPayload).1[j]?) :=
  processSendGridWebhook_batch_spec wDB wFaults wFaults' wPayload 1 (by
    intro j hj
    funext k
    have hne : (j == 1) = false := by simpa using hj
    simp [wFaults, wFaults', hne])

/-- C4. Dispatching a bounce event for a stored email sets that email
record's status to `bounced`, sets the owning company's `email_verified`
to `false`, and leaves every company's `status` field unchanged (other
rows of both tables are untouched). -/
theorem processSGEvent_bounce_spec (db : DB) (f : Nat → Bool) (ev : SGEvent)
    (email : EmailRow)
    (hf : ∀ k, f k = false) (hev : ev.event = "bounce")
    (hfind : findEmailByMessageId db ev.sg_message_id = some email) :
    (processSGEvent db f ev).1.status = "success" ∧
    (∀ (j : Nat) (e : EmailRow), db.emails[j]? = some e →
      ∃ e' : EmailRow, (processSGEvent db f ev).2.emails[j]? = some e' ∧
        (e.id = email.id → e'.status = "bounced" ∧ e'.id = e.id ∧
          e'.company_id = e.company_id) ∧
        (e.id ≠ email.id → e' = e)) ∧
    (∀ (j : Nat) (c : CompanyRow), db.companies[j]? = some c →
      ∃ c' : CompanyRow, (processSGEvent db f ev).2.companies[j]? = some c' ∧
        c'.status = c.status ∧
        (c.id = email.company_id → c'.email_verified = false) ∧
        (c.id ≠ email.company_id → c' = c)) := by
  have hstep : processSGEvent db f ev
      = (sgBounceResult ev email.id,
         updateCompanyRow (updateEmailRow db email.id bounceUpd)
           email.company_id unverifyUpd) := by
    unfold processSGEvent
    rw [hf 0, hfind, hev]
    simp [hf 1, hf 2]
  rw [hstep]
  refine ⟨rfl, ?_, ?_⟩
  · intro j e hj
    refine ⟨if e.id == email.id then bounceUpd e else e, ?_, ?_, ?_⟩
    · simp only [updateCompanyRow, updateEmailRow]
      rw [List.getElem?_map, hj]
      rfl
    · intro hid
      have hb : (e.id == email.id) = true := by simpa using hid
      rw [if_pos hb]
      exact ⟨rfl, rfl, rfl⟩
    · intro hid
      have hb : ¬(e.id == email.id) = true := by simpa using hid
      rw [if_neg hb]
  · intro j c hj
    refine ⟨if c.id == email.company_id then unverifyUpd c else c, ?_, ?_, ?_, ?_⟩
    · simp only [updateCompanyRow, updateEmailRow]
      rw [List.getElem?_map, hj]
      rfl
    · by_cases hb : (c.id == email.company_id) = true <;> simp [hb, unverifyUpd]
    · intro hid
      have hb : (c.id == email.company_id) = true := by simpa using hid
      rw [if_pos hb]
      rfl
    · intro hid
      have hb : ¬(c.id == email.company_id) = true := by simpa using hid
      rw [if_neg hb]

def wFaults0 : Nat → Bool := fun _ => false

def wBounceEvent : SGEvent := ⟨"bounce", "msgA", 102, "", "mailbox full"⟩

def wEmailRow : EmailRow := ⟨21, 7, "msgA", "hello", "body", "sent", none, none⟩

/-- Witness for C4: a bounce for the stored email of `wDB` bounces the email
row and unverifies company 7 while keeping its status "contacted". -/
theorem processSGEvent_bounce_spec_witness :
    (processSGEvent wDB wFaults0 wBounceEvent).1.status = "success" ∧
    (∀ (j : Nat) (e : EmailRow), wDB.emails[j]? = some e →
      ∃ e' : EmailRow, (processSGEvent wDB wFaults0 wBounceEvent).2.emails[j]? = some e' ∧
        (e.id = wEmailRow.id → e'.status = "bounced" ∧ e'.id = e.id ∧
          e'.company_id = e.company_id) ∧
        (e.id ≠ wEmailRow.id → e' = e)) ∧
    (∀ (j : Nat) (c : CompanyRow), wDB.companies[j]? = some c →
      ∃ c' : CompanyRow, (processSGEvent wDB wFaults0 wBounceEvent).2.companies[j]? = some c' ∧
        c'.status = c.status ∧
        (c.id = wEmailRow.company_id → c'.email_verified = false) ∧
        (c.id ≠ wEmailRow.company_id → c' = c)) :=
  processSGEvent_bounce_spec wDB wFaults0 wBounceEvent wEmailRow
    (fun _ => rfl) rfl rfl

/-!
### Company selection and the daily send loop

`getCompaniesForDailyEmails` (and step 2 of the n8n daily workflow, which
issues the same query) filters `email_verified = true`, `status = pending`,
orders by ascending `priority` only, and limits to the remaining quota.
The order of rows with equal priority is the store's order: the query
requests no secondary ordering.  Sorting a list store by priority is
modelled by a stable insertion sort.
-/

def eligibleCompany (c : CompanyRow) : Bool :=
  c.email_verified && c.status == "pending"

def insertByPriority (c : CompanyRow) : List CompanyRow → List CompanyRow
  | [] => [c]
  | x :: xs =>
      if c.priority ≤ x.priority then c :: x :: xs
      else x :: insertByPriority c xs

def sortByPriority : List CompanyRow → List CompanyRow
  | [] => []
  | c :: cs => insertByPriority c (sortByPriority cs)

def getCompaniesForDailyEmails (store : List CompanyRow) (limit : Nat) :
    List CompanyRow :=
  (sortByPriority (store.filter eligibleCompany)).take limit

/-!
The per-company pipeline of the daily workflow (step 4): generate content,
send, insert the email record, mark the company contacted, increment the
schedule counter.  External calls and store writes are numbered 0-4 in
that order; a fault at any of them throws, is caught by the loop body, and
becomes the company's error result, keeping the writes already issued.
The generated subject/body and the provider message id are abstracted by
the `gen` and `msgId` environment parameters; the store-assigned id of an
inserted email row is modelled as the next list index.
-/

structure DailyResult where
  company : String
  email : String
  status : String
  deriving Repr, DecidableEq

def mkSentResult (c : CompanyRow) : DailyResult := ⟨c.name, c.contact_email, "sent"⟩

def mkErrorResult (c : CompanyRow) : DailyResult := ⟨c.name, c.contact_email, "error"⟩

/-- Whether any of the five per-company operations is faulted: exactly when
the company's iteration throws and is caught. -/
def companyFails (f : Nat → Bool) : Bool := f 0 || f 1 || f 2 || f 3 || f 4

def contactedUpd (c : CompanyRow) : CompanyRow := { c with status := "contacted" }

def processCompany (gen : CompanyRow → String × String) (msgId : CompanyRow → String)
    (f : Nat → Bool) (db : DB) (sched : ScheduleRow) (c : CompanyRow) :
    DailyResult × DB × ScheduleRow :=
  if f 0 then (mkErrorResult c, db, sched)
  else if f 1 then (mkErrorResult c, db, sched)
  else if f 2 then (mkErrorResult c, db, sched)
  else
    let db1 : DB := { db with emails := db.emails ++
      [⟨db.emails.length, c.id, msgId c, (gen c).1, (gen c).2, "sent", none, none⟩] }
    if f 3 then (mkErrorResult c, db1, sched)
    else
      let db2 := updateCompanyRow db1 c.id contactedUpd
      if f 4 then (mkErrorResult c, db2, sched)
      else
        (mkSentResult c, db2,
         { sched with
            emails_sent := sched.emails_sent + 1,
            is_completed := decide (sched.emails_sent + 1 ≥ sched.emails_limit) })

/-- The step-4 loop: one result per processed company; after a successful
send that completes the schedule, the loop breaks (remaining companies are
not processed).  A failed company never breaks the loop. -/
def step4Loop (gen : CompanyRow → String × String) (msgId : CompanyRow → String)
    (faults : Nat → Nat → Bool) :
    Nat → List CompanyRow → DB → ScheduleRow → List DailyResult × DB × ScheduleRow
  | _, [], db, sched => ([], db, sched)
  | i, c :: cs, db, sched =>
      let step := processCompany gen msgId (faults i) db sched c
      if step.1.status == "sent" && step.2.2.is_completed then
        ([step.1], step.2.1, step.2.2)
      else
        let out := step4Loop gen msgId faults (i + 1) cs step.2.1 step.2.2
        (step.1 :: out.1, out.2.1, out.2.2)

/-- The daily workflow: stop when today's schedule is complete, otherwise
select up to the remaining quota of eligible companies and run the loop. -/
def dailyWorkflow (gen : CompanyRow → String × String) (msgId : CompanyRow → String)
    (faults : Nat → Nat → Bool) (db : DB) (sched : ScheduleRow) :
    List DailyResult × DB × ScheduleRow :=
  if sched.is_completed || decide (sched.emails_sent ≥ sched.emails_limit) then
    ([], db, sched)
  else
    step4Loop gen msgId faults 0
      (getCompaniesForDailyEmails db.companies (sched.emails_limit - sched.emails_sent))
      db sched

/-!
### Lemmas about selection and the daily loop
-/

theorem mem_insertByPriority (c a : CompanyRow) (l : List CompanyRow) :
    a ∈ insertByPriority c l ↔ a = c ∨ a ∈ l := by
  induction l with
  | nil => simp [insertByPriority]
  | cons x xs ih =>
      by_cases h : c.priority ≤ x.priority
      · simp [insertByPriority, h]
      · simp only [insertByPriority, if_neg h, List.mem_cons, ih]
        tauto

theorem mem_sortByPriority (a : CompanyRow) (l : List CompanyRow) :
    a ∈ sortByPriority l ↔ a ∈ l := by
  induction l with
  | nil => simp [sortByPriority]
  | cons x xs ih =>
      simp [sortByPriority, mem_insertByPriority, ih]

theorem insertByPriority_pairwise (c : CompanyRow) (l : List CompanyRow)
    (h : List.Pairwise (fun a b => a.priority ≤ b.priority) l) :
    List.Pairwise (fun a b => a.priority ≤ b.priority) (insertByPriority c l) := by
  induction l with
  | nil => simp [insertByPriority]
  | cons x xs ih =>
      rw [List.pairwise_cons] at h
      by_cases hc : c.priority ≤ x.priority
      · rw [insertByPriority, if_pos hc, List.pairwise_cons]
        refine ⟨?_, List.pairwise_cons.mpr h⟩
        intro b hb
        rcases List.mem_cons.mp hb with hb | hb
        · rw [hb]; exact hc
        · exact le_trans hc (h.1 b hb)
      · rw [insertByPriority, if_neg hc, List.pairwise_cons]
        refine ⟨?_, ih h.2⟩
        intro b hb
        rcases (mem_insertByPriority c b xs).mp hb with hb | hb
        · rw [hb]; exact Nat.le_of_lt (Nat.lt_of_not_le hc)
        · exact h.1 b hb

theorem sortByPriority_pairwise (l : List CompanyRow) :
    List.Pairwise (fun a b => a.priority ≤ b.priority) (sortByPriority l) := by
  induction l with
  | nil => exact List.Pairwise.nil
  | cons x xs ih => exact insertByPriority_pairwise x (sortByPriority xs) ih

theorem processCompany_result (gen : CompanyRow → String × String)
    (msgId : CompanyRow → String) (f : Nat → Bool) (db : DB) (sched : ScheduleRow)
    (c : CompanyRow) :
    (processCompany gen msgId f db sched c).1
      = if companyFails f then mkErrorResult c else mkSentResult c := by
  unfold processCompany companyFails
  by_cases h0 : f 0 = true <;> by_cases h1 : f 1 = true <;>
    by_cases h2 : f 2 = true <;> by_cases h3 : f 3 = true <;>
      by_cases h4 : f 4 = true <;> simp [h0, h1, h2, h3, h4]

theorem step4Loop_cons (gen : CompanyRow → String × String)
    (msgId : CompanyRow → String) (faults : Nat → Nat → Bool) (i : Nat)
    (c : CompanyRow) (cs : List CompanyRow) (db : DB) (sched : ScheduleRow) :
    step4Loop gen msgId faults i (c :: cs) db sched
      = (if (processCompany gen msgId (faults i) db sched c).1.status == "sent"
            && (processCompany gen msgId (faults i) db sched c).2.2.is_completed then
          ([(processCompany gen msgId (faults i) db sched c).1],
           (processCompany gen msgId (faults i) db sched c).2.1,
           (processCompany gen msgId (faults i) db sched c).2.2)
        else
          ((processCompany gen msgId (faults i) db sched c).1 ::
            (step4Loop gen msgId faults (i + 1) cs
              (processCompany gen msgId (faults i) db sched c).2.1
              (processCompany gen msgId (faults i) db sched c).2.2).1,
           (step4Loop gen msgId faults (i + 1) cs
              (processCompany gen msgId (faults i) db sched c).2.1
              (processCompany gen msgId (faults i) db sched c).2.2).2.1,
           (step4Loop gen msgId faults (i + 1) cs
              (processCompany gen msgId (faults i) db sched c).2.1
              (processCompany gen msgId (faults i) db sched c).2.2).2.2)) := rfl

theorem step4Loop_length_le (gen : CompanyRow → String × String)
    (msgId : CompanyRow → String) (faults : Nat → Nat → Bool) :
    ∀ (cs : List CompanyRow) (i : Nat) (db : DB) (sched : ScheduleRow),
      (step4Loop gen msgId faults i cs db sched).1.length ≤ cs.length := by
  intro cs
  induction cs with
  | nil => intro i db sched; exact Nat.le_refl 0
  | cons c cs ih =>
      intro i db sched
      rw [step4Loop_cons]
      by_cases hbr : ((processCompany gen msgId (faults i) db sched c).1.status == "sent"
          && (processCompany gen msgId (faults i) db sched c).2.2.is_completed) = true
      · rw [if_pos hbr]
        simp
      · rw [if_neg hbr]
        simpa using Nat.succ_le_succ (ih (i + 1) _ _)

theorem step4Loop_ne_nil (gen : CompanyRow → String × String)
    (msgId : CompanyRow → String) (faults : Nat → Nat → Bool) (i : Nat)
    (c : CompanyRow) (cs : List CompanyRow) (db : DB) (sched : ScheduleRow) :
    0 < (step4Loop gen msgId faults i (c :: cs) db sched).1.length := by
  rw [step4Loop_cons]
  by_cases hbr : ((processCompany gen msgId (faults i) db sched c).1.status == "sent"
      && (processCompany gen msgId (faults i) db sched c).2.2.is_completed) = true
  · rw [if_pos hbr]; simp
  · rw [if_neg hbr]; simp

theorem step4Loop_result (gen : CompanyRow → String × String)
    (msgId : CompanyRow → String) (faults : Nat → Nat → Bool) :
    ∀ (cs : List CompanyRow) (i : Nat) (db : DB) (sched : ScheduleRow)
      (j : Nat) (c : CompanyRow),
      cs[j]? = some c → j < (step4Loop gen msgId faults i cs db sched).1.length →
      (step4Loop gen msgId faults i cs db sched).1[j]?
        = some (if companyFails (faults (i + j)) then mkErrorResult c
                else mkSentResult c) := by
  intro cs
  induction cs with
  | nil => intro i db sched j c hc hlt; simp at hc
  | cons c0 cs' ih =>
      intro i db sched j c hc hlt
      rw [step4Loop_cons] at hlt ⊢
      by_cases hbr : ((processCompany gen msgId (faults i) db sched c0).1.status == "sent"
          && (processCompany gen msgId (faults i) db sched c0).2.2.is_completed) = true
      · rw [if_pos hbr] at hlt ⊢
        simp only [List.length_cons, List.length_nil] at hlt
        have hj0 : j = 0 := Nat.lt_one_iff.mp hlt
        subst hj0
        rw [List.getElem?_cons_zero] at hc
        cases hc
        rw [List.getElem?_cons_zero, Nat.add_zero, processCompany_result]
      · rw [if_neg hbr] at hlt ⊢
        cases j with
        | zero =>
            rw [List.getElem?_cons_zero] at hc
            cases hc
            rw [List.getElem?_cons_zero, Nat.add_zero, processCompany_result]
        | succ k =>
            rw [List.getElem?_cons_succ] at hc
            simp only [List.length_cons, Nat.succ_lt_succ_iff] at hlt
            rw [List.getElem?_cons_succ]
            have := ih (i + 1) _ _ k c hc hlt
            rw [this]
            have harith : i + 1 + k = i + (k + 1) := by omega
            rw [harith]

theorem step4Loop_no_abort (gen : CompanyRow → String × String)
    (msgId : CompanyRow → String) (faults : Nat → Nat → Bool) :
    ∀ (cs : List CompanyRow) (i : Nat) (db : DB) (sched : ScheduleRow)
      (j : Nat) (c : CompanyRow),
      cs[j]? = some c → j < (step4Loop gen msgId faults i cs db sched).1.length →
      companyFails (faults (i + j)) = true → j + 1 < cs.length →
      j + 1 < (step4Loop gen msgId faults i cs db sched).1.length := by
  intro cs
  induction cs with
  | nil => intro i db sched j c hc hlt hfail hnext; simp at hc
  | cons c0 cs' ih =>
      intro i db sched j c hc hlt hfail hnext
      rw [step4Loop_cons] at hlt ⊢
      by_cases hbr : ((processCompany gen msgId (faults i) db sched c0).1.status == "sent"
          && (processCompany gen msgId (faults i) db sched c0).2.2.is_completed) = true
      · rw [if_pos hbr] at hlt
        simp only [List.length_cons, List.length_nil] at hlt
        have hj0 : j = 0 := Nat.lt_one_iff.mp hlt
        subst hj0
        rw [List.getElem?_cons_zero] at hc
        cases hc
        exfalso
        have hres := processCompany_result gen msgId (faults i) db sched c0
        rw [Nat.add_zero] at hfail
        rw [hres, if_pos hfail] at hbr
        simp [mkErrorResult] at hbr
      · rw [if_neg hbr] at hlt ⊢
        cases j with
        | zero =>
            simp only [List.length_cons, Nat.succ_lt_succ_iff]
            have hcs : cs' ≠ [] := by
              intro hnil
              rw [hnil] at hnext
              simp at hnext
            cases cs' with
            | nil => exact absurd rfl hcs
            | cons c1 cs'' =>
                exact step4Loop_ne_nil gen msgId faults (i + 1) c1 cs'' _ _
        | succ k =>
            rw [List.getElem?_cons_succ] at hc
            simp only [List.length_cons, Nat.succ_lt_succ_iff] at hlt hnext ⊢
            have harith : i + (k + 1) = i + 1 + k := by omega
            rw [harith] at hfail
            exact ih (i + 1) _ _ k c hc hlt hfail hnext

/-!
### C2: company selection order, and the quota-2 scenario
-/

/-- Two eligible companies with equal priority; `cexA` was created first but
the store holds `cexB` first (reachable, e.g., via the bulk import that
accepts explicit `created_at` values). -/
def cexA : CompanyRow := ⟨1, "Acme", "hr@acme.example", true, "pending", 2, 10⟩

def cexB : CompanyRow := ⟨2, "Beta", "hr@beta.example", true, "pending", 2, 20⟩

/-- Counterexample to C2 as stated: the selection query orders by priority
only, so with equal priorities the store's order wins and the
later-created company can come first — the creation-time tie-break the
claim asserts does not hold. -/
theorem getCompaniesForDailyEmails_tiebreak_counterexample :
    getCompaniesForDailyEmails [cexB, cexA] 2 = [cexB, cexA] ∧
    cexA.priority = cexB.priority ∧
    cexA.created_at < cexB.created_at ∧
    getCompaniesForDailyEmails [cexB, cexA] 2 ≠ [cexA, cexB] := by
  refine ⟨rfl, rfl, by decide, ?_⟩
  have h1 : getCompaniesForDailyEmails [cexB, cexA] 2 = [cexB, cexA] := rfl
  intro h
  rw [h1] at h
  have h2 := congrArg (List.map (fun c => c.id)) h
  simp [cexA, cexB] at h2

/-- Demo data for the quota-2 scenario: five eligible pending companies of
priorities 1..5, an empty emails table, and a limit-2 schedule. -/
def demo1 : CompanyRow := ⟨1, "D1", "e1", true, "pending", 1, 1⟩

def demo2 : CompanyRow := ⟨2, "D2", "e2", true, "pending", 2, 2⟩

def demo3 : CompanyRow := ⟨3, "D3", "e3", true, "pending", 3, 3⟩

def demo4 : CompanyRow := ⟨4, "D4", "e4", true, "pending", 4, 4⟩

def demo5 : CompanyRow := ⟨5, "D5", "e5", true, "pending", 5, 5⟩

def demoDB : DB := ⟨[demo1, demo2, demo3, demo4, demo5], []⟩

def demoSched : ScheduleRow := ⟨0, 2, 0, false⟩

def demoGen : CompanyRow → String × String := fun _ => ("subject", "body")

def demoMsgId : CompanyRow → String := fun c => c.name

def noFaults : Nat → Nat → Bool := fun _ _ => false

/-- C2 (amended): the selection returns at most `limit` companies, all with
`email_verified = true` and `status = pending`, ordered by ascending
priority (ties in store order — there is no creation-time tie-break); and a
fault-free run with quota 2 over five eligible companies processes exactly
the two lowest-priority ones, leaving the other three `pending`. -/
theorem getCompaniesForDailyEmails_spec (store : List CompanyRow) (limit : Nat) :
    (getCompaniesForDailyEmails store limit).length ≤ limit ∧
    (∀ c : CompanyRow, c ∈ getCompaniesForDailyEmails store limit →
      c.email_verified = true ∧ c.status = "pending") ∧
    List.Pairwise (fun a b => a.priority ≤ b.priority)
      (getCompaniesForDailyEmails store limit) ∧
    ((dailyWorkflow demoGen demoMsgId noFaults demoDB demoSched).1
        = [⟨"D1", "e1", "sent"⟩, ⟨"D2", "e2", "sent"⟩] ∧
      (dailyWorkflow demoGen demoMsgId noFaults demoDB demoSched).2.1.companies.map
          (fun c => (c.id, c.status))
        = [(1, "contacted"), (2, "contacted"), (3, "pending"), (4, "pending"),
           (5, "pending")]) := by
  refine ⟨?_, ?_, ?_, rfl, rfl⟩
  · unfold getCompaniesForDailyEmails
    rw [List.length_take]
    exact min_le_left _ _
  · intro c hc
    unfold getCompaniesForDailyEmails at hc
    have hmem : c ∈ sortByPriority (store.filter eligibleCompany) :=
      List.take_subset _ _ hc
    have hmem' : c ∈ store.filter eligibleCompany :=
      (mem_sortByPriority c _).mp hmem
    have helig : eligibleCompany c = true := (List.mem_filter.mp hmem').2
    unfold eligibleCompany at helig
    rw [Bool.and_eq_true] at helig
    exact ⟨helig.1, by simpa using helig.2⟩
  · unfold getCompaniesForDailyEmails
    exact List.Pairwise.sublist (List.take_sublist _ _) (sortByPriority_pairwise _)

/-- C5. In the daily loop, each processed company yields exactly one result
(the error result exactly when one of its operations faulted), the result
list is no longer than the company list, and a company's failure never
ends the loop: the next company is still processed.  The loop returns the
outcome list together with the final store and schedule state. -/
theorem step4Loop_error_isolation (gen : CompanyRow → String × String)
    (msgId : CompanyRow → String) (faults : Nat → Nat → Bool)
    (companies : List CompanyRow) (db : DB) (sched : ScheduleRow) :
    (step4Loop gen msgId faults 0 companies db sched).1.length ≤ companies.length ∧
    (∀ (j : Nat) (c : CompanyRow), companies[j]? = some c →
      j < (step4Loop gen msgId faults 0 companies db sched).1.length →
      (step4Loop gen msgId faults 0 companies db sched).1[j]?
        = some (if companyFails (faults j) then mkErrorResult c
                else mkSentResult c)) ∧
    (∀ (j : Nat) (c : CompanyRow), companies[j]? = some c →
      j < (step4Loop gen msgId faults 0 companies db sched).1.length →
      companyFails (faults j) = true → j + 1 < companies.length →
      j + 1 < (step4Loop gen msgId faults 0 companies db sched).1.length) := by
  refine ⟨step4Loop_length_le gen msgId faults companies 0 db sched, ?_, ?_⟩
  · intro j c hc hlt
    have := step4Loop_result gen msgId faults companies 0 db sched j c hc hlt
    rwa [Nat.zero_add] at this
  · intro j c hc hlt hfail hnext
    have hf : companyFails (faults (0 + j)) = true := by rwa [Nat.zero_add]
    exact step4Loop_no_abort gen msgId faults companies 0 db sched j c hc hlt hf hnext

/-!
### Generated-content parsing (`parseGeneratedContent`)

The source extracts the subject with the JS regular expression
`SUBJECT:\s*(.*?)(?:\n|$)` and the body with `SUBJECT:.*?(?:\n|$)([\s\S]*)`,
each applied at the first occurrence of the literal `SUBJECT:`.  At that
occurrence the subject group is the run of non-newline characters that
follows the maximal whitespace run after the marker (greedy `\s*`, then
the lazy group stopped by `\n` or the end), and the body group is
everything after the first newline that follows the marker (empty when no
newline follows).  Both captures are `.trim()`ed; a content without the
marker falls back to the subject "Job Application" and the content itself
as body.  Text is modelled as a list of characters.
-/

/-- JS `\s` on the code points the generator emits (ASCII whitespace). -/
def jsWhitespace (c : Char) : Bool :=
  c == ' ' || c == '\t' || c == '\n' || c == '\r' ||
    c == Char.ofNat 11 || c == Char.ofNat 12

/-- JS `String.prototype.trim`: strip whitespace at both ends. -/
def trimChars (l : List Char) : List Char :=
  ((l.dropWhile jsWhitespace).reverse.dropWhile jsWhitespace).reverse

def subjectMarker : List Char := ['S', 'U', 'B', 'J', 'E', 'C', 'T', ':']

def matchesAt : List Char → List Char → Bool
  | [], _ => true
  | _ :: _, [] => false
  | p :: ps, c :: cs => p == c && matchesAt ps cs

/-- The text after the first occurrence of the marker, when there is one. -/
def afterMarker : List Char → Option (List Char)
  | [] => none
  | c :: cs =>
      if matchesAt subjectMarker (c :: cs) then some ((c :: cs).drop subjectMarker.length)
      else afterMarker cs

def containsMarker : List Char → Bool
  | [] => false
  | c :: cs => matchesAt subjectMarker (c :: cs) || containsMarker cs

/-- Everything after the first newline (empty when there is none): the body
capture of `SUBJECT:.*?(?:\n|$)([\s\S]*)`. -/
def afterNewline : List Char → List Char
  | [] => []
  | c :: cs => if c == '\n' then cs else afterNewline cs

def defaultSubject : List Char := "Job Application".toList

/-- `parseGeneratedContent`: subject and body extracted from the generated
text as the two regular expressions compute them. -/
def parseGeneratedContent (content : List Char) : List Char × List Char :=
  match afterMarker content with
  | some r =>
      (trimChars ((r.dropWhile jsWhitespace).takeWhile (fun c => !(c == '\n'))),
       trimChars (afterNewline r))
  | none => (defaultSubject, content)

theorem matchesAt_append_self (p x : List Char) : matchesAt p (p ++ x) = true := by
  induction p with
  | nil => rfl
  | cons c cs ih => simp [matchesAt, ih]

theorem afterMarker_append (x : List Char) :
    afterMarker (subjectMarker ++ x) = some x := by
  have h := matchesAt_append_self subjectMarker x
  rw [show subjectMarker ++ x = 'S' :: (['U', 'B', 'J', 'E', 'C', 'T', ':'] ++ x) from rfl]
  rw [afterMarker]
  rw [show ('S' :: (['U', 'B', 'J', 'E', 'C', 'T', ':'] ++ x)) = subjectMarker ++ x from rfl,
    if_pos h]
  rw [List.drop_left]

theorem afterMarker_of_not_contains (l : List Char) (h : containsMarker l = false) :
    afterMarker l = none := by
  induction l with
  | nil => rfl
  | cons c cs ih =>
      rw [containsMarker, Bool.or_eq_false_iff] at h
      rw [afterMarker, if_neg (by rw [h.1]; exact Bool.false_ne_true)]
      exact ih h.2

theorem dropWhile_append_of_any (l y : List Char)
    (h : l.any (fun c => !(jsWhitespace c)) = true) :
    (l ++ y).dropWhile jsWhitespace = l.dropWhile jsWhitespace ++ y := by
  induction l with
  | nil => simp at h
  | cons c cs ih =>
      by_cases hc : jsWhitespace c = true
      · rw [List.cons_append, List.dropWhile_cons_of_pos hc,
          List.dropWhile_cons_of_pos hc]
        apply ih
        rw [List.any_cons, hc] at h
        simpa using h
      · rw [List.cons_append,
          List.dropWhile_cons_of_neg hc, List.dropWhile_cons_of_neg hc,
          List.cons_append]

theorem takeWhile_append_newline (l y : List Char)
    (h : l.all (fun c => !(c == '\n')) = true) :
    (l ++ '\n' :: y).takeWhile (fun c => !(c == '\n')) = l := by
  induction l with
  | nil => simp [List.takeWhile]
  | cons c cs ih =>
      rw [List.all_cons, Bool.and_eq_true] at h
      rw [List.cons_append,
        @List.takeWhile_cons_of_pos _ (fun c => !(c == '\n')) c (cs ++ '\n' :: y) h.1,
        ih h.2]

theorem afterNewline_append (l y : List Char)
    (h : l.all (fun c => !(c == '\n')) = true) :
    afterNewline (l ++ '\n' :: y) = y := by
  induction l with
  | nil => simp [afterNewline]
  | cons c cs ih =>
      rw [List.all_cons, Bool.and_eq_true] at h
      rw [List.cons_append, afterNewline, if_neg (by simpa using h.1)]
      exact ih h.2

theorem all_dropWhile (p q : Char → Bool) (l : List Char)
    (h : l.all p = true) : (l.dropWhile q).all p = true := by
  induction l with
  | nil => rfl
  | cons c cs ih =>
      rw [List.all_cons, Bool.and_eq_true] at h
      by_cases hc : q c = true
      · rw [List.dropWhile_cons_of_pos hc]
        exact ih h.2
      · rw [List.dropWhile_cons_of_neg hc, List.all_cons, h.1]
        simpa using h.2

theorem dropWhile_idem (p : Char → Bool) (l : List Char) :
    (l.dropWhile p).dropWhile p = l.dropWhile p := by
  induction l with
  | nil => rfl
  | cons c cs ih =>
      by_cases hc : p c = true
      · rw [List.dropWhile_cons_of_pos hc]
        exact ih
      · rw [List.dropWhile_cons_of_neg hc, List.dropWhile_cons_of_neg hc]

theorem trimChars_dropWhile (l : List Char) :
    trimChars (l.dropWhile jsWhitespace) = trimChars l := by
  unfold trimChars
  rw [dropWhile_idem]

/-- C8. When the generated text is the marker followed by a subject line
(one with no newline and at least one non-whitespace character) and then
the rest of the message on later lines, parsing returns that line (trimmed)
as the subject and the remaining text (trimmed) as the body; when the
marker is absent the whole response becomes the body and the subject is the
default "Job Application". -/
theorem parseGeneratedContent_spec (content line rest : List Char)
    (hnm : containsMarker content = false)
    (hline : line.all (fun c => !(c == '\n')) = true)
    (hws : line.any (fun c => !(jsWhitespace c)) = true) :
    parseGeneratedContent content = (defaultSubject, content) ∧
    parseGeneratedContent (subjectMarker ++ (line ++ '\n' :: rest))
      = (trimChars line, trimChars rest) := by
  constructor
  · unfold parseGeneratedContent
    rw [afterMarker_of_not_contains content hnm]
  · unfold parseGeneratedContent
    rw [afterMarker_append]
    rw [Prod.mk.injEq]
    constructor
    · rw [dropWhile_append_of_any line ('\n' :: rest) hws]
      rw [show line.dropWhile jsWhitespace ++ '\n' :: rest
            = (line.dropWhile jsWhitespace) ++ '\n' :: rest from rfl]
      rw [takeWhile_append_newline _ rest (all_dropWhile _ jsWhitespace line hline)]
      exact trimChars_dropWhile line
    · rw [afterNewline_append line rest hline]

/-- Witness for C8: a marker-free content and a canonical
"SUBJECT: ...\n\n..." response. -/
theorem parseGeneratedContent_spec_witness :
    parseGeneratedContent "Hello there".toList = (defaultSubject, "Hello there".toList) ∧
    parseGeneratedContent (subjectMarker ++ (" Greetings from Acme".toList ++
        '\n' :: "\nDear team, I am writing to you. ".toList))
      = (trimChars " Greetings from Acme".toList,
         trimChars "\nDear team, I am writing to you. ".toList) :=
  parseGeneratedContent_spec "Hello there".toList " Greetings from Acme".toList
    "\nDear team, I am writing to you. ".toList (by decide) (by decide) (by decide)

/-!
### Email verification (`verifyEmail`) and the orchestrator's gate
-/

/-- The fields of the provider's verification response the code reads. -/
structure HunterVerification where
  status : String
  score : Nat
  result : String
  disposable : Bool
  webmail : Bool
  accept_all : Bool
  deriving Repr, DecidableEq

structure EmailVerificationResult where
  email : String
  isValid : Bool
  status : String
  score : Nat
  result : String
  isDisposable : Bool
  isWebmail : Bool
  isAcceptAll : Bool
  deriving Repr, DecidableEq

/-- `verifyEmail`: wrap the provider response, classifying the address as
valid exactly when the provider status is the string "valid". -/
def verifyEmail (email : String) (d : HunterVerification) : EmailVerificationResult :=
  ⟨email, d.status == "valid", d.status, d.score, d.result,
   d.disposable, d.webmail, d.accept_all⟩

/-- The orchestrator's gate (`if (!verification.isValid) continue`): a
company whose address was just verified is skipped iff the result is not
valid. -/
def verificationGateSkips (v : EmailVerificationResult) : Bool := !v.isValid

/-- C10. `verifyEmail` classifies an address as valid iff the provider
status is exactly "valid"; in particular `accept_all`, `webmail` and
`disposable` statuses are not valid and make the orchestrator skip the
company. -/
theorem verifyEmail_valid_iff (email : String) (d : HunterVerification) :
    ((verifyEmail email d).isValid = true ↔ d.status = "valid") ∧
    (d.status = "accept_all" ∨ d.status = "webmail" ∨ d.status = "disposable" →
      (verifyEmail email d).isValid = false ∧
      verificationGateSkips (verifyEmail email d) = true) := by
  constructor
  · unfold verifyEmail
    simp
  · intro h
    have hne : d.status ≠ "valid" := by
      rcases h with h | h | h <;> rw [h] <;> decide
    have hfalse : (verifyEmail email d).isValid = false := by
      unfold verifyEmail
      simpa using hne
    exact ⟨hfalse, by unfold verificationGateSkips; rw [hfalse]; rfl⟩

end AIEmailWorkflow
